import Mathlib

/-!
Verification of the co2agent markdown-to-PDF rendering core.

Shallow embedding of `src/tools/report_tools.py` and
`src/tools/search_tools.py`, with theorems settling the frozen claims
about the markdown block parser, the document assembler, the filename
sanitizer and the search-tool wrappers.

Text is modelled at the `List Char` level (Python `str` operations are
per-character), wrapped into `String` at block boundaries.
-/

namespace CO2Agent

/-! ## Low-level text helpers (Python `str` primitives) -/

/-- Python `str.strip()` on a line: drop leading and trailing whitespace. -/
def trimChars (l : List Char) : List Char :=
  ((l.dropWhile Char.isWhitespace).reverse.dropWhile Char.isWhitespace).reverse

/-- Python `str.split(d)` for a single-character separator: keeps empty
segments, and the empty string splits to one empty segment. -/
def splitOnChar (d : Char) : List Char → List (List Char)
  | [] => [[]]
  | c :: cs =>
    if c = d then
      [] :: splitOnChar d cs
    else
      match splitOnChar d cs with
      | g :: gs => (c :: g) :: gs
      | [] => [[c]]

/-- Python `str.strip(d)` for one character: drop every leading and every
trailing occurrence of `d`. -/
def stripCharBoth (d : Char) (l : List Char) : List Char :=
  ((l.dropWhile (· = d)).reverse.dropWhile (· = d)).reverse

/-- Does `l` start with `p`? (Python `str.startswith`.) -/
def startsWithChars : List Char → List Char → Bool
  | [], _ => true
  | _ :: _, [] => false
  | p :: ps, c :: cs => p = c && startsWithChars ps cs

/-- Does `s` contain `pat` as a contiguous substring? (Python `in`.) -/
def hasSubstr (pat : List Char) : List Char → Bool
  | [] => startsWithChars pat []
  | c :: cs => startsWithChars pat (c :: cs) || hasSubstr pat cs

/-! ## The CO2 notation substitution (Notation Normalizer)

`_process_inline_formatting` runs `re.sub(r'CO2', r'CO<sub>2</sub>', text)`
and `save_co2_report_to_pdf` runs `re.sub(r'CO2', 'CO₂', report_content)`.
`re.sub` with the three-character literal pattern replaces the
non-overlapping occurrences of `CO2` scanning left to right; `substWith`
is that scan for an arbitrary replacement list. -/

/-- Does the list begin with the three characters `C`, `O`, `2`? -/
def startsCO2 (l : List Char) : Bool :=
  match l with
  | c1 :: c2 :: c3 :: _ => decide (c1 = 'C' ∧ c2 = 'O' ∧ c3 = '2')
  | _ => false

/-- Does the list contain `CO2` anywhere? -/
def hasCO2 : List Char → Bool
  | [] => false
  | c :: cs => startsCO2 (c :: cs) || hasCO2 cs

/-- Left-to-right non-overlapping replacement of the literal `CO2` by
`repl`, as `re.sub(r'CO2', repl, ·)` performs it. -/
def substWith (repl : List Char) : List Char → List Char
  | [] => []
  | [c] => [c]
  | [c1, c2] => [c1, c2]
  | c1 :: c2 :: c3 :: rest =>
    if c1 = 'C' ∧ c2 = 'O' ∧ c3 = '2' then
      repl ++ substWith repl rest
    else
      c1 :: substWith repl (c2 :: c3 :: rest)

/-- The marked subscript replacement `CO<sub>2</sub>` used by the inline
formatter. -/
def replSub : List Char := ['C', 'O', '<', 's', 'u', 'b', '>', '2', '<', '/', 's', 'u', 'b', '>']

/-- The Unicode replacement `CO₂` used on the whole report content. -/
def replUni : List Char := ['C', 'O', '₂']

/-- The substitution `re.sub(r'CO2', r'CO<sub>2</sub>', ·)` at the `String` level. -/
def normalizeCO2Sub (s : String) : String := ⟨substWith replSub s.data⟩

/-- The substitution `re.sub(r'CO2', 'CO₂', ·)` at the `String` level. -/
def normalizeCO2Uni (s : String) : String := ⟨substWith replUni s.data⟩

/-! ## Inline formatter (`_process_inline_formatting`)

Bold, italic and code substitutions are lazy paired-delimiter rewrites
(`re.sub` with `\*\*(.*?)\*\*`, `\*(.*?)\*` and backtick pairs): at each
scan position a delimiter opens a match whose capture runs to the nearest
following delimiter; if no closer exists the scan advances one character.
They are modelled with a fuel argument equal to the input length, which
bounds the number of scan steps (each step consumes at least one input
character). -/

/-- Split at the earliest occurrence of the two-character delimiter
a pair of asterisks, returning the capture and the remainder. -/
def splitAtStarStar : List Char → Option (List Char × List Char)
  | '*' :: '*' :: rest => some ([], rest)
  | c :: rest => (splitAtStarStar rest).map (fun p => (c :: p.1, p.2))
  | [] => none

/-- Split at the earliest occurrence of the one-character delimiter `d`. -/
def splitAtChar (d : Char) : List Char → Option (List Char × List Char)
  | [] => none
  | c :: rest =>
    if c = d then some ([], rest)
    else (splitAtChar d rest).map (fun p => (c :: p.1, p.2))

/-- The bold rewrite `re.sub(r'\*\*(.*?)\*\*', r'<strong>\1</strong>', ·)`. -/
def subBoldAux : Nat → List Char → List Char
  | 0, s => s
  | _ + 1, [] => []
  | n + 1, c :: cs =>
    match c :: cs with
    | '*' :: '*' :: rest =>
      match splitAtStarStar rest with
      | some (cap, rest2) =>
        "<strong>".data ++ cap ++ "</strong>".data ++ subBoldAux n rest2
      | none => '*' :: subBoldAux n ('*' :: rest)
    | _ => c :: subBoldAux n cs

/-- Lazy paired rewrite for a one-character delimiter (italic asterisks
and code backticks). -/
def subDelimAux (d : Char) (openTag closeTag : List Char) : Nat → List Char → List Char
  | 0, s => s
  | _ + 1, [] => []
  | n + 1, c :: cs =>
    if c = d then
      match splitAtChar d cs with
      | some (cap, rest2) => openTag ++ cap ++ closeTag ++ subDelimAux d openTag closeTag n rest2
      | none => c :: subDelimAux d openTag closeTag n cs
    else c :: subDelimAux d openTag closeTag n cs

/-- The backtick character (code-span delimiter). -/
def codeDelim : Char := Char.ofNat 96

/-- Source `_process_inline_formatting`: bold, then italic, then code span, then
the CO2 subscript substitution, on one line's characters. -/
def processInlineChars (l : List Char) : List Char :=
  let b := subBoldAux l.length l
  let i := subDelimAux '*' "<i>".data "</i>".data b.length b
  let c := subDelimAux codeDelim "<code>".data "</code>".data i.length i
  substWith replSub c

/-- Source `_process_inline_formatting` at the `String` level. -/
def processInline (s : String) : String := ⟨processInlineChars s.data⟩

/-! ## Line classification (`_process_line` branch conditions) -/

/-- The header regex `^(#{1,4})\s+(.+)$` applied to a stripped line:
one to four marker characters, mandatory whitespace, non-empty text.
Returns the level and the heading text. -/
def headerMatch (l : List Char) : Option (Nat × List Char) :=
  let hashes := l.takeWhile (· = '#')
  let rest := l.dropWhile (· = '#')
  if 1 ≤ hashes.length ∧ hashes.length ≤ 4 then
    let ws := rest.takeWhile Char.isWhitespace
    let body := rest.dropWhile Char.isWhitespace
    if ws ≠ [] ∧ body ≠ [] then some (hashes.length, body) else none
  else none

/-- The list regex `^([-*]|\d+\.)\s+(.+)$` applied to a stripped line:
a bullet marker or an ordinal-dot marker, mandatory whitespace, non-empty
text. Returns the list kind (`bullet` or `number`) and the item text. -/
def listMatch (l : List Char) : Option (String × List Char) :=
  match l with
  | c :: rest =>
    if c = '-' ∨ c = '*' then
      let ws := rest.takeWhile Char.isWhitespace
      let body := rest.dropWhile Char.isWhitespace
      if ws ≠ [] ∧ body ≠ [] then some ("bullet", body) else none
    else
      let digits := l.takeWhile Char.isDigit
      let afterDigits := l.dropWhile Char.isDigit
      match afterDigits with
      | '.' :: rest2 =>
        if digits ≠ [] then
          let ws := rest2.takeWhile Char.isWhitespace
          let body := rest2.dropWhile Char.isWhitespace
          if ws ≠ [] ∧ body ≠ [] then some ("number", body) else none
        else none
      | _ => none
  | [] => none

/-- The table-branch guard: the line contains a column separator. -/
def isTableChars (l : List Char) : Bool := l.contains '|'

/-- The separator-discard guard inside the table branch:
`'---' in line`. -/
def hasTripleDash (l : List Char) : Bool := hasSubstr ['-', '-', '-'] l

/-- The cell extraction of the table branch:
`[cell.strip() for cell in line.strip('|').split('|')]`. -/
def tableCells (l : List Char) : List String :=
  (splitOnChar '|' (stripCharBoth '|' l)).map (fun c => String.mk (trimChars c))

/-! ## Parse state and blocks -/

/-- The mutable accumulator of `_process_markdown_content`
(`in_table` / `table_data` / `in_list` / `list_items` / `list_type`). -/
structure ParseState where
  inTable : Bool
  tableData : List (List String)
  inList : Bool
  listItems : List String
  listType : Option String
deriving DecidableEq, Repr

/-- The empty state created at the start of one conversion. -/
def initState : ParseState :=
  { inTable := false, tableData := [], inList := false, listItems := [], listType := none }

/-- One committed layout element of the output sequence. `para` carries
the ReportLab paragraph style name and the (inline-formatted) text;
`table` and `blist` are the flowables built by `_create_table` and
`_create_list`; the remaining constructors are the layout markers the
assembler inserts. -/
inductive Block where
  | para (style : String) (text : String)
  | spacer
  | table (rows : List (List String))
  | blist (items : List String) (kind : Option String)
  | pageBreak
  | frameBreak
  | nextTemplate (templateName : String)
deriving DecidableEq, Repr

/-- Source `_create_table`: every cell passes through the inline formatter. -/
def mkTable (rows : List (List String)) : Block :=
  Block.table (rows.map (fun r => r.map processInline))

/-- Source `_create_list`: items were already inline-formatted at accumulation
time. -/
def mkList (items : List String) (kind : Option String) : Block :=
  Block.blist items kind

/-- The style name chosen for a heading of the given level
(`SectionTitle` and `SubsectionTitle` are registered under the names
`CustomSectionTitle` and `CustomSubsectionTitle`). -/
def styleFor (level : Nat) : String :=
  if level = 1 then "CustomSectionTitle"
  else if level = 2 then "CustomSubsectionTitle"
  else if level = 3 then "Heading3"
  else "Heading4"

/-- Source `_process_line` on a stripped non-empty line: returns the emitted
blocks and the next state. In the list branch the flushed
previous-kind list is appended to the local `result` list, which that
branch then abandons by returning `None`; the model reproduces this by
emitting no block there. -/
def processLine (line : List Char) (s : ParseState) : List Block × ParseState :=
  match headerMatch line with
  | some (level, text) =>
    let (flushT, s1) :=
      if s.inTable then ([mkTable s.tableData], { s with inTable := false, tableData := [] })
      else ([], s)
    let (flushL, s2) :=
      if s1.inList then
        ([mkList s1.listItems s1.listType],
         { s1 with inList := false, listItems := [], listType := none })
      else ([], s1)
    let sp : List Block := if level = 1 then [Block.spacer] else []
    (flushT ++ flushL ++ sp ++ [Block.para (styleFor level) (String.mk text)], s2)
  | none =>
    match listMatch line with
    | some (kind, content) =>
      let s1 :=
        if ¬ s.inList ∨ s.listType ≠ some kind then
          { s with inList := true, listType := some kind,
                   listItems := if s.inList then [] else s.listItems }
        else s
      ([], { s1 with listItems := s1.listItems ++ [String.mk (processInlineChars content)] })
    | none =>
      if isTableChars line then
        if hasTripleDash line then ([], s)
        else
          if ¬ s.inTable then
            ([], { s with inTable := true, tableData := [tableCells line] })
          else ([], { s with tableData := s.tableData ++ [tableCells line] })
      else
        let (flushT, s1) :=
          if s.inTable then
            ([mkTable s.tableData, Block.spacer], { s with inTable := false, tableData := [] })
          else ([], s)
        let (flushL, s2) :=
          if s1.inList then
            ([mkList s1.listItems s1.listType],
             { s1 with inList := false, listItems := [], listType := none })
          else ([], s1)
        (flushT ++ flushL ++
          [Block.para "CustomBodyText" (String.mk (processInlineChars line))], s2)

/-- One iteration of the line loop of `_process_markdown_content`:
strip the raw line; a blank line flushes an open list and nothing else;
any other line goes to `_process_line`. -/
def stepLine (s : ParseState) (rawLine : List Char) : List Block × ParseState :=
  let line := trimChars rawLine
  if line = [] then
    if s.inList then
      ([mkList s.listItems s.listType],
       { s with inList := false, listItems := [], listType := none })
    else ([], s)
  else processLine line s

/-- The whole line loop: emitted blocks in order, plus the final state. -/
def runLines : List (List Char) → ParseState → List Block × ParseState
  | [], s => ([], s)
  | l :: rest, s =>
    let (bs, s') := stepLine s l
    let (bs2, s'') := runLines rest s'
    (bs ++ bs2, s'')

/-- The end-of-input flush of `_process_markdown_content`. -/
def finalFlush (s : ParseState) : List Block :=
  (if s.inTable ∧ s.tableData ≠ [] then [mkTable s.tableData] else []) ++
  (if s.inList ∧ s.listItems ≠ [] then [mkList s.listItems s.listType] else [])

/-- Parse a list of raw lines into the committed block sequence. -/
def parseLines (ls : List (List Char)) : List Block :=
  let r := runLines ls initState
  r.1 ++ finalFlush r.2

/-- Source `_process_markdown_content`: title paragraph, generation-timestamp
paragraph and spacer, followed by the parsed body of
`report_content.strip().split('\n')`. -/
def processMarkdownContent (wellName timestamp content : String) : List Block :=
  [Block.para "CustomReportTitle" ("CO₂ Storage Assessment Report: " ++ wellName),
   Block.para "CustomReportSubtitle" ("Generated on: " ++ timestamp),
   Block.spacer] ++
  parseLines (splitOnChar '\n' (trimChars content.data))

/-! ## Document assembler (`save_co2_report_to_pdf`, lines 168-181) -/

/-- The boundary test of `_find_title_page_end`:
`isinstance(element, Paragraph) and "Introduction" in element.text`. -/
def isIntroPara : Block → Bool
  | Block.para _ t => hasSubstr "Introduction".data t.data
  | _ => false

/-- The scan loop of `_find_title_page_end`, carrying the running index;
falls back to `min 10 (length of the whole list)` past the end. -/
def findTitlePageEndAux (es : List Block) : Nat → List Block → Nat
  | _, [] => min 10 es.length
  | i, b :: bs => if isIntroPara b then i else findTitlePageEndAux es (i + 1) bs

/-- Source `_find_title_page_end`. -/
def findTitlePageEnd (es : List Block) : Nat := findTitlePageEndAux es 0 es

/-- Python `list.insert(i, x)`: insert before index `i`, appending when
`i` is past the end. -/
def pyInsert (l : List Block) (i : Nat) (b : Block) : List Block :=
  l.take i ++ [b] ++ l.drop i

/-- The FrameBreak condition of the assembler scan:
`isinstance(elements[i], Paragraph) and elements[i].style.name ==
'CustomSectionTitle'`. -/
def isSectionHeading : Block → Bool
  | Block.para style _ => style = "CustomSectionTitle"
  | _ => false

/-- The loop `for i in range(title_page_end_index + 2, len(elements))`
with its in-place insertions. `range` is materialised before the loop
body runs, so the iteration count is fixed at `len(elements) - start`
even though each insertion grows the list; the fuel argument is that
fixed count. Indexing past the end cannot occur (the list only grows),
so the `getD` default is never used. -/
def frameBreakLoop : Nat → Nat → List Block → List Block
  | 0, _, es => es
  | n + 1, i, es =>
    frameBreakLoop n (i + 1)
      (if isSectionHeading (es.getD i Block.spacer) then pyInsert es i Block.frameBreak else es)

/-- Lines 168-181 of `save_co2_report_to_pdf`: insert the title template
marker at position 0, locate the title-page boundary, insert the page
break and the two-column template marker there, then run the FrameBreak
scan over the remainder. -/
def assembleBreaks (elements : List Block) : List Block :=
  let els := pyInsert elements 0 (Block.nextTemplate "title")
  let tpe := findTitlePageEnd els
  if 0 < tpe then
    let els2 := pyInsert (pyInsert els tpe Block.pageBreak) (tpe + 1)
      (Block.nextTemplate "two_column")
    frameBreakLoop (els2.length - (tpe + 2)) (tpe + 2) els2
  else els

/-! ## Filename sanitisation (`save_co2_report_to_pdf`, lines 109-111) -/

/-- Python regex word character (the `\w` class of `re.sub(r'[^\w]', ...)`
with a `str` pattern), modelled exactly for code points below 256, which
covers every character appearing in this development: the ASCII
alphanumerics and underscore together with the Latin-1 word characters
(ordinal indicators, superscript digits, vulgar fractions, micro sign,
and the accented letters, excluding the multiplication and division
signs). Python's `\w` additionally matches word characters above this
range, which no theorem here exercises. -/
def pyWordChar (c : Char) : Bool :=
  let n := c.toNat
  decide ((48 ≤ n ∧ n ≤ 57) ∨ (65 ≤ n ∧ n ≤ 90) ∨ n = 95 ∨ (97 ≤ n ∧ n ≤ 122) ∨
    n = 0xAA ∨ n = 0xB2 ∨ n = 0xB3 ∨ n = 0xB5 ∨ n = 0xB9 ∨ n = 0xBA ∨
    n = 0xBC ∨ n = 0xBD ∨ n = 0xBE ∨
    (0xC0 ≤ n ∧ n ≤ 0xFF ∧ n ≠ 0xD7 ∧ n ≠ 0xF7))

/-- The substitution `re.sub(r'[^\w]', '_', well_name)`: every non-word character becomes
an underscore. -/
def sanitizeWellName (s : String) : String :=
  ⟨s.data.map (fun c => if pyWordChar c then c else '_')⟩

/-- The produced artifact path
`co2_assessment_reports/CO2_Storage_Assessment_{sanitized}_{timestamp}.pdf`. -/
def buildFilename (wellName timestamp : String) : String :=
  "co2_assessment_reports/CO2_Storage_Assessment_" ++ sanitizeWellName wellName ++
    "_" ++ timestamp ++ ".pdf"

/-! ## Search tools (`src/tools/search_tools.py`)

The arXiv client and the DuckDuckGo client are external collaborators;
each search wrapper is modelled as a function of the backend outcome,
an `Except` that is `.error` exactly when the backend raises. The
`relevance_score` values are sums of the literal increments 2/1 and
3/1/2/0.5, all exactly representable, modelled in `ℚ`. -/

/-- Python `str.lower()` (ASCII model). -/
def lowerStr (s : String) : String := ⟨s.data.map Char.toLower⟩

/-- Split on single whitespace characters (keeping empty segments; the
caller filters them, matching `str.split()`). -/
def splitOnWs : List Char → List (List Char)
  | [] => [[]]
  | c :: cs =>
    if c.isWhitespace then
      [] :: splitOnWs cs
    else
      match splitOnWs cs with
      | g :: gs => (c :: g) :: gs
      | [] => [[c]]

/-- Python `str.split()` with no argument: words separated by runs of
whitespace, no empty words. -/
def wordsOf (s : String) : List String :=
  ((splitOnWs s.data).filter (fun w => w ≠ [])).map String.mk

/-- Python `term in text`: substring containment at the `String` level. -/
def strContains (text term : String) : Bool := hasSubstr term.data text.data

/-- Source `_calculate_relevance_score`: `set(query.lower().split())`, then +2
per distinct term occurring in the lowered title and +1 per distinct term
occurring in the lowered abstract. -/
def calculateRelevanceScore (query title abstract : String) : ℚ :=
  let queryTerms := (wordsOf (lowerStr query)).eraseDups
  let s1 := queryTerms.foldl
    (fun sc t => if strContains (lowerStr title) t then sc + 2 else sc) 0
  queryTerms.foldl
    (fun sc t => if strContains (lowerStr abstract) t then sc + 1 else sc) s1

/-- The fixed bonus-term list of `_calculate_web_relevance`. -/
def co2StorageTerms : List String :=
  ["co2", "carbon", "storage", "sequestration", "reservoir", "porosity",
   "permeability", "cap rock", "formation", "injection", "geological"]

/-- Source `_calculate_web_relevance`: +3/+1 per query term (not deduplicated)
in title/snippet, +2/+0.5 per bonus term in title/snippet. -/
def calculateWebRelevance (query title snippet : String) : ℚ :=
  let queryTerms := wordsOf (lowerStr query)
  let s1 := queryTerms.foldl
    (fun sc t =>
      let sc2 := if strContains (lowerStr title) t then sc + 3 else sc
      if strContains (lowerStr snippet) t then sc2 + 1 else sc2) 0
  co2StorageTerms.foldl
    (fun sc t =>
      let sc2 := if strContains (lowerStr title) t then sc + 2 else sc
      if strContains (lowerStr snippet) t then sc2 + 1/2 else sc2) s1

/-- One paper as yielded by the arXiv client. -/
structure ArxivPaper where
  title : String
  authors : List String
  published : String
  summary : String
  pdfUrl : String
  categories : List String
deriving DecidableEq, Repr

/-- One element of the sequence `arxiv_search` returns: either a paper
dictionary or the error sentinel dictionary. -/
inductive ArxivResult where
  | paper (title : String) (authors : List String) (published : String)
      (abstract : String) (pdfUrl : String) (categories : List String)
      (relevanceScore : ℚ)
  | errorEntry (msg : String)
deriving DecidableEq, Repr

/-- The lookup `x.get("relevance_score", 0)`: the sort key, defaulting to 0 for a
dictionary without the key. -/
def ArxivResult.score : ArxivResult → ℚ
  | ArxivResult.paper _ _ _ _ _ _ r => r
  | ArxivResult.errorEntry _ => 0

/-- Source `arxiv_search`: on backend success, build one entry per paper with
its relevance score and sort by descending score
(`results.sort(key=..., reverse=True)`, a stable descending sort); on a
backend exception, return the single error-sentinel entry. -/
def arxivSearch (query : String) (backend : Except String (List ArxivPaper)) :
    List ArxivResult :=
  match backend with
  | Except.error e => [ArxivResult.errorEntry ("Search failed: " ++ e)]
  | Except.ok papers =>
    let results := papers.map (fun p =>
      ArxivResult.paper p.title p.authors p.published p.summary p.pdfUrl p.categories
        (calculateRelevanceScore query p.title p.summary))
    results.mergeSort (fun a b => decide (b.score ≤ a.score))

/-- One raw hit as yielded by the DuckDuckGo client. -/
structure WebHit where
  title : String
  href : String
  body : String
deriving DecidableEq, Repr

/-- One element of the sequence `internet_search` returns. -/
inductive WebResult where
  | entry (title : String) (url : String) (snippet : String) (relevanceScore : ℚ)
  | errorEntry (msg : String)
deriving DecidableEq, Repr

/-- The lookup `x.get("relevance_score", 0)` for web results. -/
def WebResult.score : WebResult → ℚ
  | WebResult.entry _ _ _ r => r
  | WebResult.errorEntry _ => 0

/-- Source `internet_search`: on backend success, build one entry per hit
(title, url, snippet, relevance) and sort by descending score; on a
backend exception, return the single error-sentinel entry. -/
def internetSearch (query : String) (backend : Except String (List WebHit)) :
    List WebResult :=
  match backend with
  | Except.error e => [WebResult.errorEntry ("Search failed: " ++ e)]
  | Except.ok hits =>
    let results := hits.map (fun h =>
      WebResult.entry h.title h.href h.body (calculateWebRelevance query h.title h.body))
    results.mergeSort (fun a b => decide (b.score ≤ a.score))

/-! ## Classification predicates for stating the claims -/

/-- The stripped line takes the heading branch of `_process_line`. -/
def isHeadingLine (l : List Char) : Bool := (headerMatch l).isSome

/-- The stripped line takes the list branch of `_process_line`. -/
def isListLine (l : List Char) : Bool := (listMatch l).isSome

/-- The stripped line takes the paragraph fallback branch of
`_process_line`. -/
def isParagraphLine (l : List Char) : Bool :=
  !l.isEmpty && !isHeadingLine l && !isListLine l && !isTableChars l

/-! ## Definitions following the claims' words, for comparison

The following definitions are NOT translated from the source: each
follows the words of a spec claim, so that a theorem can compare it with
the source-translated behaviour. -/

/-- From the claims' words: a Heading block, i.e., a paragraph that
carries one of the four markdown heading styles. -/
def isHeadingBlockSpec : Block → Bool
  | Block.para style _ =>
    style == "CustomSectionTitle" || style == "CustomSubsectionTitle" ||
      style == "Heading3" || style == "Heading4"
  | _ => false

/-- From claim C3's words: the title/body boundary is the index of the
first Heading block whose text contains the literal substring
`Introduction`; absent such a heading, `min 10 length`. -/
def specHeadingBoundary (es : List Block) : Nat :=
  match es.findIdx? (fun b => isHeadingBlockSpec b && isIntroPara b) with
  | some i => i
  | none => min 10 es.length

/-- From claim C5's words: a pure separator/divider row, consisting only
of separator, dash, and space characters. -/
def specPureSeparatorRow (l : List Char) : Bool :=
  l.all (fun c => c = '|' || c = '-' || c = ' ')

/-- From claim C6's words: a character inside `[A-Za-z0-9_]`. -/
def specAsciiWord (c : Char) : Bool :=
  decide ((65 ≤ c.toNat ∧ c.toNat ≤ 90) ∨ (97 ≤ c.toNat ∧ c.toNat ≤ 122) ∨
    (48 ≤ c.toNat ∧ c.toNat ≤ 57) ∨ c.toNat = 95)

/-- From claim C6's words: the sanitized name with every character
outside `[A-Za-z0-9_]` replaced by an underscore. -/
def specSanitize (s : String) : String :=
  ⟨s.data.map (fun c => if specAsciiWord c then c else '_')⟩

/-! ## Helper lemmas -/

theorem startsCO2_cons_ne {c : Char} (l : List Char) (h : c ≠ 'C') :
    startsCO2 (c :: l) = false := by
  match l with
  | [] => rfl
  | [x] => rfl
  | x :: y :: r => simp [startsCO2, h]

theorem startsCO2_second_ne {c1 c2 : Char} (l : List Char) (h : c2 ≠ 'O') :
    startsCO2 (c1 :: c2 :: l) = false := by
  match l with
  | [] => rfl
  | x :: r => simp [startsCO2, h]

theorem startsCO2_third_ne {c1 c2 c3 : Char} (l : List Char) (h : c3 ≠ '2') :
    startsCO2 (c1 :: c2 :: c3 :: l) = false := by
  simp [startsCO2, h]

theorem hasCO2_cons (c : Char) (l : List Char) :
    hasCO2 (c :: l) = (startsCO2 (c :: l) || hasCO2 l) := rfl

theorem hasCO2_replSub_append (t : List Char) :
    hasCO2 (replSub ++ t) = hasCO2 t := by
  show hasCO2 ('C' :: 'O' :: '<' :: 's' :: 'u' :: 'b' :: '>' :: '2' :: '<' :: '/' :: 's' :: 'u' :: 'b' :: '>' :: t) = hasCO2 t
  rw [hasCO2_cons, startsCO2_third_ne _ (by decide)]
  rw [hasCO2_cons, startsCO2_cons_ne _ (by decide)]
  rw [hasCO2_cons, startsCO2_cons_ne _ (by decide)]
  rw [hasCO2_cons, startsCO2_cons_ne _ (by decide)]
  rw [hasCO2_cons, startsCO2_cons_ne _ (by decide)]
  rw [hasCO2_cons, startsCO2_cons_ne _ (by decide)]
  rw [hasCO2_cons, startsCO2_cons_ne _ (by decide)]
  rw [hasCO2_cons, startsCO2_cons_ne _ (by decide)]
  rw [hasCO2_cons, startsCO2_cons_ne _ (by decide)]
  rw [hasCO2_cons, startsCO2_cons_ne _ (by decide)]
  rw [hasCO2_cons, startsCO2_cons_ne _ (by decide)]
  rw [hasCO2_cons, startsCO2_cons_ne _ (by decide)]
  rw [hasCO2_cons, startsCO2_cons_ne _ (by decide)]
  rw [hasCO2_cons, startsCO2_cons_ne _ (by decide)]
  simp

theorem hasCO2_replUni_append (t : List Char) :
    hasCO2 (replUni ++ t) = hasCO2 t := by
  show hasCO2 ('C' :: 'O' :: '₂' :: t) = hasCO2 t
  rw [hasCO2_cons, startsCO2_third_ne _ (by decide)]
  rw [hasCO2_cons, startsCO2_cons_ne _ (by decide)]
  rw [hasCO2_cons, startsCO2_cons_ne _ (by decide)]
  simp

/-- The replacement never changes the head character: every branch of
`substWith` either keeps the head or (in the match branch) replaces a
leading `C` by a replacement that also begins with `C`. -/
theorem substWith_head {repl : List Char} (hd : repl.head? = some 'C') :
    ∀ l : List Char, (substWith repl l).head? = l.head?
  | [] => rfl
  | [c] => rfl
  | [c1, c2] => rfl
  | c1 :: c2 :: c3 :: rest => by
    rw [substWith]
    split
    · next h =>
      cases repl with
      | nil => simp at hd
      | cons r rs =>
        have hr : r = 'C' := by simpa using hd
        simp [hr, h.1]
    · rfl

theorem hasCO2_substWith {repl : List Char} (hd : repl.head? = some 'C')
    (hs : ∀ t, hasCO2 (repl ++ t) = hasCO2 t) :
    ∀ l : List Char, hasCO2 (substWith repl l) = false
  | [] => rfl
  | [c] => rfl
  | [c1, c2] => rfl
  | c1 :: c2 :: c3 :: rest => by
    rw [substWith]
    split
    · next h =>
      rw [hs]
      exact hasCO2_substWith hd hs rest
    · next h =>
      rw [hasCO2_cons]
      have ih := hasCO2_substWith hd hs (c2 :: c3 :: rest)
      have hstart : startsCO2 (c1 :: substWith repl (c2 :: c3 :: rest)) = false := by
        by_cases hc1 : c1 = 'C'
        · by_cases hc2 : c2 = 'O'
          · have hc3 : c3 ≠ '2' := fun hc3 => h ⟨hc1, hc2, hc3⟩
            subst hc1; subst hc2
            cases rest with
            | nil => exact startsCO2_third_ne _ hc3
            | cons r rs =>
              have hx : substWith repl ('O' :: c3 :: r :: rs)
                  = 'O' :: substWith repl (c3 :: r :: rs) := by
                rw [substWith]
                split
                · next hh => exact absurd hh.1 (by decide)
                · rfl
              rw [hx]
              have hy := substWith_head hd (c3 :: r :: rs)
              cases hz : substWith repl (c3 :: r :: rs) with
              | nil => rw [hz] at hy; simp at hy
              | cons e es =>
                rw [hz] at hy
                simp at hy
                subst hy
                exact startsCO2_third_ne _ hc3
          · have hy := substWith_head hd (c2 :: c3 :: rest)
            cases hz : substWith repl (c2 :: c3 :: rest) with
            | nil => rw [hz] at hy; simp at hy
            | cons e es =>
              rw [hz] at hy
              simp at hy
              subst hy
              exact startsCO2_second_ne _ hc2
        · exact startsCO2_cons_ne _ hc1
      simp [hstart, ih]

/-- A list without `CO2` is a fixed point of the substitution. -/
theorem substWith_of_not_hasCO2 {repl : List Char} :
    ∀ l : List Char, hasCO2 l = false → substWith repl l = l
  | [], _ => rfl
  | [c], _ => rfl
  | [c1, c2], _ => rfl
  | c1 :: c2 :: c3 :: rest, h => by
    rw [hasCO2_cons] at h
    have hns : startsCO2 (c1 :: c2 :: c3 :: rest) = false := by
      cases hx : startsCO2 (c1 :: c2 :: c3 :: rest) <;> simp [hx] at h ⊢
    have hrest : hasCO2 (c2 :: c3 :: rest) = false := by
      cases hx : startsCO2 (c1 :: c2 :: c3 :: rest) <;> simp [hx] at h
      exact h
    rw [substWith]
    split
    · next hh =>
      exfalso
      simp [startsCO2, hh.1, hh.2.1, hh.2.2] at hns
    · rw [substWith_of_not_hasCO2 (c2 :: c3 :: rest) hrest]

/-- Idempotence of the substitution scan, for any replacement that starts
with `C` and cannot create a new `CO2` at its seam. -/
theorem substWith_idem {repl : List Char} (hd : repl.head? = some 'C')
    (hs : ∀ t, hasCO2 (repl ++ t) = hasCO2 t) (l : List Char) :
    substWith repl (substWith repl l) = substWith repl l :=
  substWith_of_not_hasCO2 _ (hasCO2_substWith hd hs l)

/-- The scan loop of `_find_title_page_end` returns the offset index of
the first matching element, or the `min 10` fallback. -/
theorem findTitlePageEndAux_spec (es : List Block) :
    ∀ (bs : List Block) (i : Nat),
      findTitlePageEndAux es i bs =
        (match bs.findIdx? isIntroPara with
         | some j => i + j
         | none => min 10 es.length)
  | [], i => by simp [findTitlePageEndAux, List.findIdx?_nil]
  | b :: bs, i => by
    rw [findTitlePageEndAux]
    by_cases hb : isIntroPara b
    · simp [hb, List.findIdx?_cons]
    · rw [findTitlePageEndAux_spec es bs (i + 1)]
      rw [List.findIdx?_cons]
      simp only [hb, if_false, Bool.false_eq_true]
      rw [List.findIdx?_start_succ]
      cases hfind : bs.findIdx? isIntroPara with
      | none => rfl
      | some j =>
        show (i + 1) + j = i + (j + (0 + 1))
        omega

/-- A merge sort with the descending-by-key comparator produces a
sequence that is pairwise non-increasing in the key. -/
theorem pairwise_mergeSort_byKey {α : Type} (f : α → ℚ) (l : List α) :
    List.Pairwise (fun a b => f b ≤ f a)
      (l.mergeSort (fun a b => decide (f b ≤ f a))) := by
  have h := @List.sorted_mergeSort α (fun a b => decide (f b ≤ f a))
    (fun a b c hab hbc => by
      simp only [decide_eq_true_eq] at *
      exact le_trans hbc hab)
    (fun a b => by
      simp only [Bool.or_eq_true, decide_eq_true_eq]
      exact le_total (f b) (f a))
    l
  exact h.imp (fun hab => by simpa using hab)

/-- On the character range below 128 the modelled Python word class
agrees with the ASCII class `[A-Za-z0-9_]`. -/
theorem pyWordChar_ascii (c : Char) (h : c.toNat < 128) :
    pyWordChar c = specAsciiWord c := by
  have key : ∀ n : Nat, n < 128 →
      (decide ((48 ≤ n ∧ n ≤ 57) ∨ (65 ≤ n ∧ n ≤ 90) ∨ n = 95 ∨ (97 ≤ n ∧ n ≤ 122) ∨
        n = 0xAA ∨ n = 0xB2 ∨ n = 0xB3 ∨ n = 0xB5 ∨ n = 0xB9 ∨ n = 0xBA ∨
        n = 0xBC ∨ n = 0xBD ∨ n = 0xBE ∨
        (0xC0 ≤ n ∧ n ≤ 0xFF ∧ n ≠ 0xD7 ∧ n ≠ 0xF7))) =
      (decide ((65 ≤ n ∧ n ≤ 90) ∨ (97 ≤ n ∧ n ≤ 122) ∨
        (48 ≤ n ∧ n ≤ 57) ∨ n = 95)) := by decide
  exact key c.toNat h

/-! ## The claims -/

/-- C4 (confirmed): the notation normalization is idempotent — applying
the CO2 substitution twice (in either its `CO<sub>2</sub>` inline form or
its `CO₂` whole-content form) equals applying it once, because the marked
form produced does not itself contain the literal token `CO2`. -/
theorem claim_c4_normalizer_idempotent (s : String) :
    normalizeCO2Sub (normalizeCO2Sub s) = normalizeCO2Sub s ∧
    normalizeCO2Uni (normalizeCO2Uni s) = normalizeCO2Uni s :=
  ⟨congrArg String.mk (@substWith_idem replSub rfl hasCO2_replSub_append s.data),
   congrArg String.mk (@substWith_idem replUni rfl hasCO2_replUni_append s.data)⟩

/-- C9 (confirmed): when the search backend raises, both search
operations return exactly the one-element sequence carrying the error
string, never propagating the exception (the wrappers are total and
produce the sentinel on the error branch). -/
theorem claim_c9_error_sentinel (query e : String) :
    arxivSearch query (Except.error e) =
      [ArxivResult.errorEntry ("Search failed: " ++ e)] ∧
    internetSearch query (Except.error e) =
      [WebResult.errorEntry ("Search failed: " ++ e)] ∧
    (arxivSearch query (Except.error e)).length = 1 ∧
    (internetSearch query (Except.error e)).length = 1 :=
  ⟨rfl, rfl, rfl, rfl⟩

/-- C10 (confirmed): on backend success both search operations return
their results sorted in non-increasing order of the `relevance_score`
field (`results.sort(key=..., reverse=True)`). -/
theorem claim_c10_sorted_by_relevance (query : String)
    (papers : List ArxivPaper) (hits : List WebHit) :
    List.Pairwise (fun a b => ArxivResult.score b ≤ ArxivResult.score a)
      (arxivSearch query (Except.ok papers)) ∧
    List.Pairwise (fun a b => WebResult.score b ≤ WebResult.score a)
      (internetSearch query (Except.ok hits)) :=
  ⟨pairwise_mergeSort_byKey ArxivResult.score _,
   pairwise_mergeSort_byKey WebResult.score _⟩

/-- C1 (code bug): on the document with two top-level sections
(`Introduction` and `Methods`) the assembler does not insert exactly one
column break before each `CustomSectionTitle` heading. The scan iterates
a range fixed at the pre-loop length while inserting in place, so each
insertion shifts the first matching heading onto the next scan index:
six FrameBreak markers pile up immediately before the `Introduction`
heading and the `Methods` heading receives none. -/
theorem claim_c1_framebreak_pileup :
    assembleBreaks
        (processMarkdownContent "W" "T"
          "# Introduction\nAlpha.\n# Methods\nBeta.\nGamma.") =
      [Block.nextTemplate "title",
       Block.para "CustomReportTitle" "CO₂ Storage Assessment Report: W",
       Block.para "CustomReportSubtitle" "Generated on: T",
       Block.spacer, Block.spacer,
       Block.pageBreak, Block.nextTemplate "two_column",
       Block.frameBreak, Block.frameBreak, Block.frameBreak,
       Block.frameBreak, Block.frameBreak, Block.frameBreak,
       Block.para "CustomSectionTitle" "Introduction",
       Block.para "CustomBodyText" "Alpha.",
       Block.spacer,
       Block.para "CustomSectionTitle" "Methods",
       Block.para "CustomBodyText" "Beta.",
       Block.para "CustomBodyText" "Gamma."] := by
  decide

/-- C2 (code bug): after the table row `| A | B |` opens a table
accumulation, the list line `- item` opens a list accumulation without
flushing the table — the list branch of `_process_line` never closes an
open table (nor the table branch an open list) — so `in_table` and
`in_list` are both true, violating the at-most-one-flag invariant. -/
theorem claim_c2_both_accumulations_open :
    (runLines ["| A | B |".data, "- item".data] initState).2.inTable = true ∧
    (runLines ["| A | B |".data, "- item".data] initState).2.inList = true := by
  decide

/-- C3 counterexample: on the assembled sequence for the content
`See the Introduction below` followed by the heading `# Introduction`,
the scan stops at index 4, the body-text paragraph, while the first
Heading block containing `Introduction` sits at index 6 — the boundary
is not the index of the first such Heading block. -/
theorem claim_c3_counterexample :
    findTitlePageEnd
        (pyInsert
          (processMarkdownContent "W" "T"
            "See the Introduction below\n# Introduction")
          0 (Block.nextTemplate "title")) = 4 ∧
    specHeadingBoundary
        (pyInsert
          (processMarkdownContent "W" "T"
            "See the Introduction below\n# Introduction")
          0 (Block.nextTemplate "title")) = 6 ∧
    (4 : Nat) ≠ 6 := by
  decide

/-- C3 (corrected): the title/body boundary equals the index of the
first block that is a text paragraph of any style — heading styles and
body paragraphs alike — whose text contains the literal substring
`Introduction`; if none exists it equals `min 10 length`; in all cases it
is at most the sequence length, so the boundary insertions stay in
range. -/
theorem claim_c3_boundary_amended (es : List Block) :
    findTitlePageEnd es =
      (match es.findIdx? isIntroPara with
       | some i => i
       | none => min 10 es.length) ∧
    findTitlePageEnd es ≤ es.length := by
  have h := findTitlePageEndAux_spec es es 0
  rw [findTitlePageEnd, h]
  cases hfind : es.findIdx? isIntroPara with
  | none =>
    exact ⟨rfl, min_le_right _ _⟩
  | some j =>
    have hj : j < es.length := (List.findIdx?_eq_some_iff_findIdx_eq.mp hfind).1
    constructor
    · show 0 + j = j
      omega
    · show 0 + j ≤ es.length
      omega

/-- C6 counterexample: the accented letter `é` lies outside
`[A-Za-z0-9_]`, so the claim requires it to become an underscore, but
Python's Unicode `\w` class matches it and `re.sub(r'[^\w]', '_', ·)`
keeps it unchanged. -/
theorem claim_c6_counterexample :
    sanitizeWellName "é" = "é" ∧ specSanitize "é" = "_" ∧ ("é" : String) ≠ "_" := by
  decide

/-- C6 (corrected): the sanitized component replaces every character that
is not a Python word character by an underscore; on subject names made of
ASCII characters this coincides with replacing every character outside
`[A-Za-z0-9_]`, but non-ASCII word characters such as `é` are kept. -/
theorem claim_c6_sanitize_amended (s : String)
    (h : ∀ c ∈ s.data, c.toNat < 128) :
    sanitizeWellName s = specSanitize s := by
  apply congrArg String.mk
  apply List.map_congr_left
  intro c hc
  rw [pyWordChar_ascii c (h c hc)]

/-- Witness for C6: the scenario subject name `15/9-14` is ASCII, the
amended theorem applies, and the sanitized component is `15_9_14`. -/
theorem claim_c6_witness :
    sanitizeWellName "15/9-14" = specSanitize "15/9-14" ∧
    sanitizeWellName "15/9-14" = "15_9_14" := by
  have h := claim_c6_sanitize_amended "15/9-14" (by decide)
  exact ⟨h, by decide⟩

/-- C8 counterexample: the empty subject name sanitizes to the empty
string, and the produced path holds an empty subject component (the
consecutive underscores), not a non-empty placeholder token: no
non-empty string can stand between the fixed prefix and the
timestamp suffix of the produced path. -/
theorem claim_c8_counterexample :
    sanitizeWellName "" = "" ∧
    buildFilename "" "20240101_000000" =
      "co2_assessment_reports/CO2_Storage_Assessment__20240101_000000.pdf" ∧
    ¬ ∃ p : String, p ≠ "" ∧
        buildFilename "" "20240101_000000" =
          "co2_assessment_reports/CO2_Storage_Assessment_" ++ p ++
            "_20240101_000000.pdf" := by
  refine ⟨rfl, by decide, ?_⟩
  rintro ⟨p, hp, he⟩
  apply hp
  have hlen := congrArg String.length he
  rw [String.length_append, String.length_append] at hlen
  have h1 : (buildFilename "" "20240101_000000").length = 66 := by decide
  have h2 : ("co2_assessment_reports/CO2_Storage_Assessment_" : String).length = 46 := by
    decide
  have h3 : ("_20240101_000000.pdf" : String).length = 20 := by decide
  rw [h1, h2, h3] at hlen
  have hlen0 : p.data.length = 0 := by
    have : p.length = 0 := by omega
    exact this
  exact String.ext (List.length_eq_zero.mp hlen0)

/-- C8 (corrected): the sanitizer replaces characters rather than
dropping them, so the sanitized form is empty exactly for the empty
subject name; in that case the produced path simply carries an empty
subject component between two underscores — no placeholder token is
substituted. -/
theorem claim_c8_empty_component_amended (name timestamp : String) :
    (sanitizeWellName name = "" ↔ name = "") ∧
    buildFilename "" timestamp =
      "co2_assessment_reports/CO2_Storage_Assessment__" ++ timestamp ++ ".pdf" := by
  constructor
  · constructor
    · intro h
      have hd : name.data.map (fun c => if pyWordChar c then c else '_') = [] :=
        String.ext_iff.mp h
      exact String.ext (List.map_eq_nil_iff.mp hd)
    · rintro rfl
      rfl
  · rfl

/-- C5 counterexample: the row `| -- | -- |` consists only of separator,
dash and space characters — a pure separator/divider row in the claim's
words — yet it is not discarded: it lacks the substring `---` that the
code actually tests for, so it lands in the accumulated table as the row
`["--", "--"]`. -/
theorem claim_c5_counterexample :
    specPureSeparatorRow "| -- | -- |".data = true ∧
    parseLines ["| A | B |".data, "| -- | -- |".data, "| 1 | 2 |".data] =
      [Block.table [["A", "B"], ["--", "--"], ["1", "2"]]] := by
  decide

/-- C5 (corrected): while accumulating a table, an input line is
discarded if and only if it contains the substring `---` anywhere (the
code's `'---' in line` test) — not exactly the pure separator rows; the
claim's scenario still holds because its divider row does contain
`---`. -/
theorem claim_c5_separator_amended (s : ParseState) (l : List Char)
    (hh : headerMatch l = none) (hl : listMatch l = none)
    (ht : isTableChars l = true) :
    processLine l s =
      (if hasTripleDash l then ([], s)
       else ([],
         if ¬ s.inTable then
           { s with inTable := true, tableData := [tableCells l] }
         else { s with tableData := s.tableData ++ [tableCells l] })) ∧
    parseLines ["| A | B |".data, "| --- | --- |".data, "| 1 | 2 |".data] =
      [Block.table [["A", "B"], ["1", "2"]]] := by
  constructor
  · rw [processLine, hh, hl]
    simp only [ht, if_true]
    split
    · rfl
    · split
      · rfl
      · rfl
  · decide

/-- Witness for C5: the row `| 1 | 2 |` reaches the table branch while a
table is open and is appended as the cell row `["1", "2"]`. -/
theorem claim_c5_witness :
    processLine "| 1 | 2 |".data
        { inTable := true, tableData := [["A", "B"]], inList := false,
          listItems := [], listType := none } =
      ([], { inTable := true, tableData := [["A", "B"], ["1", "2"]],
             inList := false, listItems := [], listType := none }) := by
  have h := (claim_c5_separator_amended
    { inTable := true, tableData := [["A", "B"]], inList := false,
      listItems := [], listType := none }
    "| 1 | 2 |".data (by decide) (by decide) (by decide)).1
  rw [h]
  decide

/-- C7 (confirmed): a line that strips to blank emits no block of its
own — it only flushes an open list accumulation — and leaves any open
table accumulation open with its rows intact; moreover an open table is
closed only by a line taking the heading, list or paragraph branch
(in fact only heading and paragraph lines close it, which the claimed
set contains), never by a blank line alone. -/
theorem claim_c7_blank_line_handling (s : ParseState) (bl l : String)
    (hb : trimChars bl.data = []) :
    stepLine s bl.data =
      (if s.inList then
        ([mkList s.listItems s.listType],
         { s with inList := false, listItems := [], listType := none })
       else ([], s)) ∧
    (stepLine s bl.data).2.inTable = s.inTable ∧
    (stepLine s bl.data).2.tableData = s.tableData ∧
    (stepLine s bl.data).2.inList = false ∧
    (s.inTable = true → (stepLine s l.data).2.inTable = false →
      isHeadingLine (trimChars l.data) = true ∨
        isListLine (trimChars l.data) = true ∨
        isParagraphLine (trimChars l.data) = true) := by
  have hstep : stepLine s bl.data =
      (if s.inList then
        ([mkList s.listItems s.listType],
         { s with inList := false, listItems := [], listType := none })
       else ([], s)) := by
    rw [stepLine, hb]
    simp
  refine ⟨hstep, ?_, ?_, ?_, ?_⟩
  · rw [hstep]
    by_cases hIL : s.inList <;> simp [hIL]
  · rw [hstep]
    by_cases hIL : s.inList <;> simp [hIL]
  · rw [hstep]
    by_cases hIL : s.inList <;> simp [hIL]
  · intro hT hF
    rw [stepLine] at hF
    by_cases hL : trimChars l.data = []
    · rw [if_pos hL] at hF
      by_cases hIL : s.inList <;> simp [hIL, hT] at hF
    · rw [if_neg hL] at hF
      cases hh : headerMatch (trimChars l.data) with
      | some p =>
        left
        simp [isHeadingLine, hh]
      | none =>
        cases hlm : listMatch (trimChars l.data) with
        | some p =>
          exfalso
          obtain ⟨kind, content⟩ := p
          simp only [processLine, hh, hlm] at hF
          split at hF <;> simp_all
        | none =>
          by_cases htc : isTableChars (trimChars l.data)
          · exfalso
            simp only [processLine, hh, hlm, htc, if_true] at hF
            split_ifs at hF <;> simp_all
          · right; right
            simp [isParagraphLine, isHeadingLine, isListLine, hh, hlm, htc, hL]

/-- Witness for C7: with an open table and an open list, the blank line
flushes only the list and keeps the table open; the paragraph line
`Alpha` is in the set of table-closing line classes. -/
theorem claim_c7_witness :
    (stepLine
        { inTable := true, tableData := [["A", "B"]], inList := true,
          listItems := ["x"], listType := some "bullet" } "  ".data).2.inTable = true ∧
    (isHeadingLine (trimChars "Alpha".data) = true ∨
      isListLine (trimChars "Alpha".data) = true ∨
      isParagraphLine (trimChars "Alpha".data) = true) := by
  have h := claim_c7_blank_line_handling
    { inTable := true, tableData := [["A", "B"]], inList := true,
      listItems := ["x"], listType := some "bullet" } "  " "Alpha" (by decide)
  exact ⟨by rw [h.2.1], h.2.2.2.2 rfl (by decide)⟩

end CO2Agent
